import Mathlib

/-!
Verification of the live telemetry core of pyCANstreamViewer.

Shallow embedding of `src/pycanstreamviewer/live_data_store.py`,
`decode.py`, and the windowed-consumption logic of `figure_block.py` /
`main_window.py`.  Python floats are modelled as rationals (`ℚ`); the
numpy arrays backing the circular buffer are modelled as lists of a
fixed length; Python exceptions are modelled with `Option` / `Except`.
-/

namespace PyCan

/-- Model of `CircularBuffer` (`live_data_store.py`): two pre-allocated
arrays `_t`, `_val` of length `_capacity`, a write head and a saturating
count.  `np.empty` leaves the arrays with arbitrary contents, so the
initial list contents are unconstrained by the theorems below. -/
structure CircularBuffer where
  t : List ℚ
  val : List ℚ
  capacity : ℕ
  head : ℕ
  count : ℕ
deriving DecidableEq, Repr

/-- Model of `CircularBuffer.__init__(capacity)`: `np.empty(capacity)`
for both arrays (contents arbitrary; zeros chosen here), `head = 0`,
`count = 0`.  The source performs no validation of `capacity`. -/
def CircularBuffer.mkEmpty (c : ℕ) : CircularBuffer :=
  ⟨List.replicate c 0, List.replicate c 0, c, 0, 0⟩

/-- Model of `CircularBuffer.append(t, val)`: write both arrays at
`head`, advance `head` modulo capacity, saturate `count`. -/
def CircularBuffer.append (b : CircularBuffer) (t v : ℚ) : CircularBuffer :=
  { b with
    t := b.t.set b.head t
    val := b.val.set b.head v
    head := (b.head + 1) % b.capacity
    count := if b.count < b.capacity then b.count + 1 else b.count }

/-- Model of `CircularBuffer.append` with its failure behaviour made
explicit: `self._t[self._head] = t` raises `IndexError` when `head` is
not a valid index (which happens exactly for a zero-capacity buffer),
and `% self._capacity` raises `ZeroDivisionError` when capacity is 0.
`none` models the raised exception. -/
def CircularBuffer.append_checked (b : CircularBuffer) (t v : ℚ) :
    Option CircularBuffer :=
  if b.head < b.t.length ∧ b.head < b.val.length ∧ b.capacity ≠ 0 then
    some (b.append t v)
  else
    none

/-- Model of `CircularBuffer.get_arrays()`: empty result when `count = 0`;
a prefix copy when not yet full; the rotation
`t[head:] ++ t[:head]` when full and wrapped. -/
def CircularBuffer.get_arrays (b : CircularBuffer) : List ℚ × List ℚ :=
  if b.count = 0 then ([], [])
  else if b.count < b.capacity then
    (b.t.take b.count, b.val.take b.count)
  else
    (b.t.drop b.head ++ b.t.take b.head,
     b.val.drop b.head ++ b.val.take b.head)

/-- Appending a whole sequence of `(t, val)` pairs, one `append` per pair. -/
def CircularBuffer.appendList (b : CircularBuffer) (ps : List (ℚ × ℚ)) :
    CircularBuffer :=
  ps.foldl (fun b p => b.append p.1 p.2) b

/-- The last `k` elements of a list. -/
def lastN (k : ℕ) (l : List ℚ) : List ℚ :=
  l.drop (l.length - k)

/-- State invariant of `CircularBuffer` after the history `s` of appended
`(t, val)` pairs has been fed to a fresh buffer of capacity `c`. -/
def Inv (c : ℕ) (s : List (ℚ × ℚ)) (b : CircularBuffer) : Prop :=
  b.capacity = c ∧ b.t.length = c ∧ b.val.length = c ∧
  b.count = min s.length c ∧ b.head = s.length % c ∧
  (s.length < c →
    b.t.take s.length = s.map Prod.fst ∧
    b.val.take s.length = s.map Prod.snd) ∧
  (c ≤ s.length →
    b.t.drop b.head ++ b.t.take b.head = lastN c (s.map Prod.fst) ∧
    b.val.drop b.head ++ b.val.take b.head = lastN c (s.map Prod.snd))

/-- Model of `np.searchsorted(t, v, side="left")` on a time-ascending
array (`FigureBlock.refresh_plots`): the insertion index, i.e. the
length of the longest prefix of elements strictly below `v`. -/
def searchsorted_left (l : List ℚ) (v : ℚ) : ℕ :=
  (l.takeWhile (fun a => decide (a < v))).length

/-- Model of `np.searchsorted(t, v, side="right")` on a time-ascending
array: the length of the longest prefix of elements at most `v`. -/
def searchsorted_right (l : List ℚ) (v : ℚ) : ℕ :=
  (l.takeWhile (fun a => decide (a ≤ v))).length

/-- Model of the `t_min` computation in `MainWindow._on_refresh_tick`:
`t_min = max(0.0, t_max - window_sec)`. -/
def t_min_of (t_max window_sec : ℚ) : ℚ :=
  max 0 (t_max - window_sec)

/-- Model of the visible sub-range lookup in `FigureBlock.refresh_plots`:
`i_lo = np.searchsorted(t, visible_t_range[0], side="left")` and
`i_hi = np.searchsorted(t, visible_t_range[1], side="right")`, where
`visible_t_range = (t_min, t_min + window_sec)`. -/
def visible_bounds (t : List ℚ) (lo hi : ℚ) : ℕ × ℕ :=
  (searchsorted_left t lo, searchsorted_right t hi)

set_option maxRecDepth 10000

/-- Association-list update mirroring Python dict assignment: replace
the binding if the key is present, otherwise add it at the end. -/
def setBuf : List (String × CircularBuffer) → String → CircularBuffer →
    List (String × CircularBuffer)
  | [], n, b => [(n, b)]
  | (k, v) :: rest, n, b =>
    if k = n then (n, b) :: rest else (k, v) :: setBuf rest n b

/-- Model of `LiveDataStore` (`live_data_store.py`): buffers keyed by
signal name, configured buffer capacity, `t0` (absolute timestamp of the
first sample) and `latest_t` (running maximum of relative timestamps).
The lock is not modelled: every operation is a single atomic step. -/
structure LiveDataStore where
  buffers : List (String × CircularBuffer)
  buffer_capacity : ℕ
  t0 : Option ℚ
  latest_t : Option ℚ
deriving DecidableEq, Repr

/-- Model of `LiveDataStore.__init__(buffer_capacity)`. -/
def LiveDataStore.mkStore (cap : ℕ) : LiveDataStore :=
  ⟨[], cap, none, none⟩

/-- Model of `LiveDataStore.append(signal_name, timestamp, value)`.
Besides the updated store, the result carries the relative time `t_rel`
that the body passed to `CircularBuffer.append`, so the claims about
stored relative times can be stated without instrumenting the buffer. -/
def LiveDataStore.appendT (s : LiveDataStore) (name : String)
    (timestamp value : ℚ) : LiveDataStore × ℚ :=
  let t0 := match s.t0 with
    | none => timestamp
    | some a => a
  let t_rel := timestamp - t0
  let latest := match s.latest_t with
    | none => some t_rel
    | some lt => if lt < t_rel then some t_rel else some lt
  let buf := match s.buffers.lookup name with
    | none => CircularBuffer.mkEmpty s.buffer_capacity
    | some b => b
  ({ s with
      t0 := some t0
      latest_t := latest
      buffers := setBuf s.buffers name (buf.append t_rel value) },
   t_rel)

/-- `LiveDataStore.append` proper (the store produced by `appendT`). -/
def LiveDataStore.append (s : LiveDataStore) (name : String)
    (timestamp value : ℚ) : LiveDataStore :=
  (s.appendT name timestamp value).1

/-- Model of `LiveDataStore.get_latest_timestamp()`. -/
def LiveDataStore.get_latest_timestamp (s : LiveDataStore) : Option ℚ :=
  s.latest_t

/-- Model of `LiveDataStore.clear()`. -/
def LiveDataStore.clear (s : LiveDataStore) : LiveDataStore :=
  { s with buffers := [], t0 := none, latest_t := none }

/-- Appending a whole session's worth of `(name, timestamp, value)`
triples, collecting the relative time stored by each append. -/
def LiveDataStore.appendAllT (s : LiveDataStore) :
    List (String × ℚ × ℚ) → LiveDataStore × List ℚ
  | [] => (s, [])
  | (n, tv) :: rest =>
    let p := s.appendT n tv.1 tv.2
    let q := p.1.appendAllT rest
    (q.1, p.2 :: q.2)

/-- The running-maximum update performed on `latest_t` by each append:
`if self._latest_t is None or t_rel > self._latest_t`. -/
def runMax (o : Option ℚ) (rs : List ℚ) : Option ℚ :=
  rs.foldl (fun acc r =>
    match acc with
    | none => some r
    | some a => if a < r then some r else some a) o

/-- Python exception kinds relevant to `DecoderListener.on_message_received`:
`KeyError` (caught by the dedicated `except KeyError` clause) and every
other exception (caught by the final `except Exception` clause). -/
inductive PyErr
  | keyError
  | other
deriving DecidableEq, Repr

/-- Model of a `can.Message`: arbitration id, payload bytes, absolute
timestamp. -/
structure Msg where
  arbitration_id : ℕ
  data : List ℕ
  timestamp : ℚ
deriving DecidableEq, Repr

/-- Observable effects of one `on_message_received` call:
`logCannotDecode` is the `logger.info("Cannot decode ArbID ...")` in the
`except KeyError` clause, `logDecodeError` is the `logger.exception` in
the `except Exception` clause, `newSignals` is an invocation of
`self._new_signals_callback`. -/
inductive DecoderEvent
  | logCannotDecode (id : ℕ)
  | logDecodeError (id : ℕ)
  | newSignals (names : List String)
deriving DecidableEq, Repr

/-- The external schema (`cantools` database): `none` models
`get_message_by_frame_id` raising `KeyError`; the returned decoder maps
payload bytes to either a raised exception or a list of
`(signal_name, value)` pairs, where each value is itself either a
`float(value)` result or an exception raised by that conversion. -/
abbrev Schema :=
  ℕ → Option (List ℕ → Except PyErr (List (String × Except PyErr ℚ)))

/-- Model of `DecoderListener` state: the negative-result id cache
`_no_decode`, the first-seen signal set `_known_signals`, the shared
data store, and whether `_new_signals_callback` is not `None`. -/
structure DecoderListener where
  no_decode : List ℕ
  known_signals : List String
  data_store : LiveDataStore
  has_new_signals_callback : Bool
deriving DecidableEq, Repr

/-- Model of `DecoderListener.__init__` (fresh caches). -/
def DecoderListener.mkListener (store : LiveDataStore) (cb : Bool) :
    DecoderListener :=
  ⟨[], [], store, cb⟩

/-- Model of the `for signal_name, value in signals.items()` loop body:
convert the value (`float(value)` may raise), append to the store, and
record newly discovered names.  An exception aborts the loop but the
mutations already performed persist, so the error carries the partial
store and first-seen set (the local `newly_discovered` list is lost). -/
def processSignals (ts : ℚ) :
    LiveDataStore → List String → List String →
      List (String × Except PyErr ℚ) →
      Except (PyErr × LiveDataStore × List String)
        (LiveDataStore × List String × List String)
  | store, known, newly, [] => .ok (store, known, newly)
  | store, known, newly, (name, v) :: rest =>
    match v with
    | .error e => .error (e, store, known)
    | .ok x =>
      let store2 := store.append name ts x
      if name ∈ known then
        processSignals ts store2 known newly rest
      else
        processSignals ts store2 (name :: known) (newly ++ [name]) rest

/-- Model of `DecoderListener.on_message_received`: early return on a
cached id; `KeyError` (from resolution, decode, or the loop) adds the id
to the cache and logs once; any other exception logs once; on success
the newly-discovered batch is emitted at most once, only when non-empty
and a callback is installed. -/
def DecoderListener.on_message_received (db : Schema)
    (d : DecoderListener) (msg : Msg) :
    DecoderListener × List DecoderEvent :=
  if msg.arbitration_id ∈ d.no_decode then
    (d, [])
  else
    match db msg.arbitration_id with
    | none =>
      ({ d with no_decode := msg.arbitration_id :: d.no_decode },
       [.logCannotDecode msg.arbitration_id])
    | some dec =>
      match dec msg.data with
      | .error .keyError =>
        ({ d with no_decode := msg.arbitration_id :: d.no_decode },
         [.logCannotDecode msg.arbitration_id])
      | .error .other =>
        (d, [.logDecodeError msg.arbitration_id])
      | .ok sigs =>
        match processSignals msg.timestamp d.data_store d.known_signals
            [] sigs with
        | .ok (store2, known2, newly) =>
          ({ d with data_store := store2, known_signals := known2 },
           if newly ≠ [] ∧ d.has_new_signals_callback = true then
             [.newSignals newly]
           else [])
        | .error (.keyError, store2, known2) =>
          ({ d with
              data_store := store2
              known_signals := known2
              no_decode := msg.arbitration_id :: d.no_decode },
           [.logCannotDecode msg.arbitration_id])
        | .error (.other, store2, known2) =>
          ({ d with data_store := store2, known_signals := known2 },
           [.logDecodeError msg.arbitration_id])

/-- Delivering a sequence of frames, collecting all events in order. -/
def run_messages (db : Schema) :
    DecoderListener → List Msg → DecoderListener × List DecoderEvent
  | d, [] => (d, [])
  | d, m :: ms =>
    let p := d.on_message_received db m
    let q := run_messages db p.1 ms
    (q.1, p.2 ++ q.2)

/-- The names of a frame's signals that were not previously seen, in
order of first occurrence within the frame. -/
def newFirstSeen : List String → List String → List String
  | _, [] => []
  | known, n :: rest =>
    if n ∈ known then newFirstSeen known rest
    else n :: newFirstSeen (n :: known) rest

/-- Appending the already-converted `(name, value)` pairs of a frame
prefix to the store, all with the frame's timestamp. -/
def appendSignals (ts : ℚ) (store : LiveDataStore)
    (sigs : List (String × ℚ)) : LiveDataStore :=
  sigs.foldl (fun st p => st.append p.1 ts p.2) store

/-- The first-seen set carried by either outcome of the signal loop. -/
def psKnown :
    Except (PyErr × LiveDataStore × List String)
      (LiveDataStore × List String × List String) → List String
  | .ok (_, kn, _) => kn
  | .error (_, _, kn) => kn

/-- Concrete schema for the spec's discovery scenario: frame id 1
decodes to signals `A`, `B`; frame id 2 decodes to `B`, `C`; other ids
are unknown. -/
def exampleSchema : Schema := fun i =>
  if i = 1 then some (fun _ => .ok [("A", .ok 1), ("B", .ok 2)])
  else if i = 2 then some (fun _ => .ok [("B", .ok 3), ("C", .ok 4)])
  else none

/-- A freshly constructed listener with a discovery callback installed. -/
def exampleListener : DecoderListener :=
  DecoderListener.mkListener (LiveDataStore.mkStore 2) true

lemma lastN_of_length_le {k : ℕ} {l : List ℚ} (h : l.length ≤ k) :
    lastN k l = l := by
  unfold lastN
  rw [Nat.sub_eq_zero_of_le h, List.drop_zero]

lemma lastN_append_of_le {c : ℕ} (hc : 1 ≤ c) {l : List ℚ}
    (h : c ≤ l.length) (x : ℚ) :
    lastN c (l ++ [x]) = (lastN c l).drop 1 ++ [x] := by
  unfold lastN
  rw [List.drop_drop]
  have hlen : (l ++ [x]).length = l.length + 1 := by simp
  rw [hlen]
  have hidx : l.length + 1 - c = l.length - c + 1 := by omega
  rw [hidx, List.drop_append_of_le_length (by omega)]

lemma take_set_succ {arr : List ℚ} {n : ℕ} (hn : n < arr.length) (a : ℚ) :
    (arr.set n a).take (n + 1) = arr.take n ++ [a] := by
  rw [List.set_take]
  have hlen : (arr.take (n + 1)).length = n + 1 :=
    List.length_take_of_le (by omega)
  rw [List.set_eq_take_cons_drop a (by rw [hlen]; omega)]
  rw [List.take_take, List.drop_of_length_le (by rw [hlen])]
  simp [Nat.min_eq_left (Nat.le_succ n)]

lemma rot_set_tail {arr : List ℚ} {h : ℕ} (hh : h < arr.length) (a : ℚ) :
    (arr.set h a).drop ((h + 1) % arr.length) ++
        (arr.set h a).take ((h + 1) % arr.length)
      = (arr.drop h ++ arr.take h).drop 1 ++ [a] := by
  have eR : (arr.drop h ++ arr.take h).drop 1 ++ [a]
      = arr.drop (h + 1) ++ (arr.take h ++ [a]) := by
    rw [List.drop_append_of_le_length (by rw [List.length_drop]; omega)]
    rw [List.drop_drop, List.append_assoc]
  rw [eR]
  rcases Nat.lt_or_ge (h + 1) arr.length with hlt | hge
  · rw [Nat.mod_eq_of_lt hlt]
    have e1 : (arr.set h a).drop (h + 1) = arr.drop (h + 1) := by
      rw [List.drop_set, if_pos (Nat.lt_succ_self h)]
    rw [e1, take_set_succ hh a]
  · have hEq : h + 1 = arr.length := by omega
    rw [hEq, Nat.mod_self]
    simp only [List.drop_zero, List.take_zero, List.append_nil]
    rw [List.set_eq_take_cons_drop a hh, hEq, List.drop_length]
    simp

lemma Inv.get_arrays_eq {c : ℕ} (hc : 1 ≤ c) {s : List (ℚ × ℚ)}
    {b : CircularBuffer} (h : Inv c s b) :
    b.get_arrays = (lastN (min s.length c) (s.map Prod.fst),
                    lastN (min s.length c) (s.map Prod.snd)) := by
  obtain ⟨hcap, ht, hv, hcount, hhead, hsmall, hfull⟩ := h
  unfold CircularBuffer.get_arrays
  rcases Nat.lt_or_ge s.length c with hlt | hge
  · have hmin : min s.length c = s.length := Nat.min_eq_left hlt.le
    rcases Nat.eq_zero_or_pos s.length with h0 | hpos
    · have hs : s = [] := List.length_eq_zero.mp h0
      subst hs
      simp [hcount, lastN]
    · have hc0 : ¬ b.count = 0 := by omega
      have hclt : b.count < b.capacity := by omega
      rw [if_neg hc0, if_pos hclt, hcount, hmin]
      obtain ⟨e1, e2⟩ := hsmall hlt
      rw [e1, e2, lastN_of_length_le (by simp), lastN_of_length_le (by simp)]
  · have hmin : min s.length c = c := Nat.min_eq_right hge
    have hc0 : ¬ b.count = 0 := by omega
    have hclt : ¬ b.count < b.capacity := by omega
    rw [if_neg hc0, if_neg hclt, hmin]
    obtain ⟨e1, e2⟩ := hfull hge
    rw [e1, e2]

lemma inv_append {c : ℕ} (hc : 1 ≤ c) {s : List (ℚ × ℚ)}
    {b : CircularBuffer} (h : Inv c s b) (x y : ℚ) :
    Inv c (s ++ [(x, y)]) (b.append x y) := by
  obtain ⟨hcap, ht, hv, hcount, hhead, hsmall, hfull⟩ := h
  have hlen' : (s ++ [(x, y)]).length = s.length + 1 := by simp
  unfold CircularBuffer.append
  rcases Nat.lt_or_ge s.length c with hlt | hge
  · -- buffer not yet full: head = count = s.length
    have hheadeq : b.head = s.length := by
      rw [hhead, Nat.mod_eq_of_lt hlt]
    have hcounteq : b.count = s.length := by
      rw [hcount, Nat.min_eq_left hlt.le]
    have htk : b.t.take s.length = s.map Prod.fst := (hsmall hlt).1
    have hvk : b.val.take s.length = s.map Prod.snd := (hsmall hlt).2
    refine ⟨hcap, by simpa using ht, by simpa using hv, ?_, ?_, ?_, ?_⟩
    · simp only [hlen', hcounteq]
      rw [if_pos (by omega)]
      omega
    · simp only [hlen', hheadeq, hcap]
    · intro hlt'
      rw [hlen'] at hlt'
      constructor
      · rw [hlen', hheadeq, take_set_succ (by omega) x, htk]
        simp
      · rw [hlen', hheadeq, take_set_succ (by omega) y, hvk]
        simp
    · intro hge'
      rw [hlen'] at hge'
      have hEq : s.length + 1 = c := by omega
      have hhead' : (b.head + 1) % b.capacity = 0 := by
        rw [hheadeq, hcap, hEq, Nat.mod_self]
      constructor
      · rw [hhead', List.drop_zero, List.take_zero, List.append_nil]
        rw [List.set_eq_take_cons_drop x (by omega), hheadeq]
        rw [show s.length + 1 = b.t.length by omega, List.drop_length, htk]
        rw [lastN_of_length_le (by simp; omega)]
        simp
      · rw [hhead', List.drop_zero, List.take_zero, List.append_nil]
        rw [List.set_eq_take_cons_drop y (by omega), hheadeq]
        rw [show s.length + 1 = b.val.length by omega, List.drop_length, hvk]
        rw [lastN_of_length_le (by simp; omega)]
        simp
  · -- buffer full and wrapping
    have hcounteq : b.count = c := by
      rw [hcount, Nat.min_eq_right hge]
    have hheadlt : b.head < c := by
      rw [hhead]
      exact Nat.mod_lt _ (by omega)
    obtain ⟨e1, e2⟩ := hfull hge
    refine ⟨hcap, by simpa using ht, by simpa using hv, ?_, ?_, ?_, ?_⟩
    · simp only [hlen', hcounteq]
      rw [if_neg (by omega)]
      omega
    · simp only [hlen', hcap, hhead]
      rw [Nat.mod_add_mod]
    · intro hlt'
      rw [hlen'] at hlt'
      omega
    · intro _
      constructor
      · have := @rot_set_tail b.t b.head (by omega) x
        rw [ht] at this
        rw [hcap, this, e1]
        rw [← lastN_append_of_le hc (by simp; omega) x]
        simp
      · have := @rot_set_tail b.val b.head (by omega) y
        rw [hv] at this
        rw [hcap, this, e2]
        rw [← lastN_append_of_le hc (by simp; omega) y]
        simp

lemma inv_appendList {c : ℕ} (hc : 1 ≤ c) :
    ∀ (ps : List (ℚ × ℚ)) {s : List (ℚ × ℚ)} {b : CircularBuffer},
      Inv c s b → Inv c (s ++ ps) (b.appendList ps)
  | [], s, b, h => by simpa [CircularBuffer.appendList] using h
  | p :: ps, s, b, h => by
    have h1 := inv_append hc h p.1 p.2
    have h2 := inv_appendList hc ps h1
    have hs : (s ++ [(p.1, p.2)]) ++ ps = s ++ (p :: ps) := by simp
    rw [hs] at h2
    simpa [CircularBuffer.appendList] using h2

/-- C1: for every ring buffer of capacity `c ≥ 1` and every sequence of
`N > c` appends, `get_arrays` returns exactly the last `c` appended
`(time, value)` pairs, in the order they were appended. -/
theorem C1_snapshot_returns_last_capacity
    (c : ℕ) (hc : 1 ≤ c) (b0 : CircularBuffer)
    (hcap : b0.capacity = c) (ht : b0.t.length = c) (hv : b0.val.length = c)
    (hhead : b0.head = 0) (hcount : b0.count = 0)
    (ps : List (ℚ × ℚ)) (hn : c < ps.length) :
    (b0.appendList ps).get_arrays
      = (lastN c (ps.map Prod.fst), lastN c (ps.map Prod.snd)) := by
  have h0 : Inv c [] b0 := by
    refine ⟨hcap, ht, hv, by simpa using hcount, by simpa using hhead,
      ?_, ?_⟩
    · intro _
      simp
    · intro hle
      exfalso
      simp at hle
      omega
  have h1 := inv_appendList hc ps h0
  rw [List.nil_append] at h1
  have h2 := Inv.get_arrays_eq hc h1
  rwa [Nat.min_eq_right hn.le] at h2

/-- C1 witness: the concrete scenario from the spec — capacity 5,
appends `(0,1),(1,2),(2,3),(3,4),(4,5),(5,6)`; the snapshot is times
`[1,2,3,4,5]` and values `[2,3,4,5,6]`. -/
theorem C1_snapshot_returns_last_capacity_witness :
    ((CircularBuffer.mkEmpty 5).appendList
        [(0, 1), (1, 2), (2, 3), (3, 4), (4, 5), (5, 6)]).get_arrays
      = ([1, 2, 3, 4, 5], [2, 3, 4, 5, 6]) := by
  have h := C1_snapshot_returns_last_capacity 5 (by decide)
    (CircularBuffer.mkEmpty 5) rfl (by decide) (by decide) rfl rfl
    [(0, 1), (1, 2), (2, 3), (3, 4), (4, 5), (5, 6)] (by decide)
  rw [h]
  decide

/-- C8 counterexample: `CircularBuffer.__init__` performs no capacity
validation, so constructing a buffer with capacity 0 succeeds (the
constructor is total, exactly as in the source); the first `append` on
that successfully constructed buffer then fails (`IndexError`).  This
refutes the claim that capacity 0 fails fast at construction time and
that append can never fail once a buffer is constructed. -/
theorem C8_counterexample_zero_capacity :
    (CircularBuffer.mkEmpty 0).capacity = 0 ∧
    CircularBuffer.append_checked (CircularBuffer.mkEmpty 0) 1 2 = none := by
  decide

/-- C8 (amended): construction performs no capacity check and succeeds
for every capacity, including 0; `append` fails (index error) on the
zero-capacity buffer, while on every well-formed buffer of positive
capacity (`head < capacity`, arrays of length `capacity` — true of every
freshly constructed buffer with `capacity ≥ 1`) `append` always succeeds
and preserves well-formedness. -/
theorem C8_append_fails_iff_zero_capacity :
    (∀ t v : ℚ,
      CircularBuffer.append_checked (CircularBuffer.mkEmpty 0) t v = none) ∧
    (∀ c : ℕ, 1 ≤ c →
      (CircularBuffer.mkEmpty c).head < (CircularBuffer.mkEmpty c).capacity ∧
      (CircularBuffer.mkEmpty c).t.length = (CircularBuffer.mkEmpty c).capacity ∧
      (CircularBuffer.mkEmpty c).val.length = (CircularBuffer.mkEmpty c).capacity) ∧
    (∀ b : CircularBuffer, b.head < b.capacity →
      b.t.length = b.capacity → b.val.length = b.capacity →
      ∀ t v : ℚ,
        CircularBuffer.append_checked b t v = some (b.append t v) ∧
        (b.append t v).head < (b.append t v).capacity ∧
        (b.append t v).t.length = (b.append t v).capacity ∧
        (b.append t v).val.length = (b.append t v).capacity) := by
  refine ⟨?_, ?_, ?_⟩
  · intro t v
    simp [CircularBuffer.append_checked, CircularBuffer.mkEmpty]
  · intro c hcpos
    simp [CircularBuffer.mkEmpty]
    omega
  · intro b hhead ht hv t v
    have hcpos : 0 < b.capacity := by omega
    refine ⟨?_, ?_, ?_, ?_⟩
    · rw [CircularBuffer.append_checked, if_pos ⟨by omega, by omega, by omega⟩]
    · simpa [CircularBuffer.append] using Nat.mod_lt _ hcpos
    · simpa [CircularBuffer.append] using ht
    · simpa [CircularBuffer.append] using hv

/-- C8 witness: a concrete successful append on a well-formed buffer of
capacity 3. -/
theorem C8_append_fails_iff_zero_capacity_witness :
    CircularBuffer.append_checked (CircularBuffer.mkEmpty 3) 1 2
      = some ((CircularBuffer.mkEmpty 3).append 1 2) :=
  (C8_append_fails_iff_zero_capacity.2.2 (CircularBuffer.mkEmpty 3)
    (by decide) (by decide) (by decide) 1 2).1

lemma searchsorted_left_spec (v : ℚ) :
    ∀ (l : List ℚ), l.Sorted (· ≤ ·) →
      searchsorted_left l v ≤ l.length ∧
      ∀ (i : ℕ) (h : i < l.length),
        (v ≤ l.get ⟨i, h⟩ ↔ searchsorted_left l v ≤ i)
  | [], _ => by
      refine ⟨by simp [searchsorted_left], ?_⟩
      intro i h
      simp at h
  | a :: rest, hs => by
      have ha : ∀ b ∈ rest, a ≤ b := (List.sorted_cons.mp hs).1
      have hrest : rest.Sorted (· ≤ ·) := (List.sorted_cons.mp hs).2
      have IH := searchsorted_left_spec v rest hrest
      by_cases hav : a < v
      · have hssl : searchsorted_left (a :: rest) v
            = searchsorted_left rest v + 1 := by
          simp [searchsorted_left, List.takeWhile_cons, hav]
        refine ⟨by simp only [hssl, List.length_cons]; omega, ?_⟩
        intro i h
        cases i with
        | zero =>
            simp only [List.get_cons_zero, hssl]
            constructor
            · intro hv
              exact absurd hav (not_lt.mpr hv)
            · intro h0
              omega
        | succ j =>
            have hj : j < rest.length := by
              simpa using h
            have := (IH.2 j hj)
            simp only [List.get_cons_succ, hssl]
            rw [show rest.get ⟨j, by simpa using h⟩
                = rest.get ⟨j, hj⟩ from rfl]
            rw [this]
            omega
      · have hssl : searchsorted_left (a :: rest) v = 0 := by
          simp [searchsorted_left, List.takeWhile_cons, hav]
        refine ⟨by simp [hssl], ?_⟩
        intro i h
        simp only [hssl]
        constructor
        · intro _
          omega
        · intro _
          cases i with
          | zero =>
              simpa using not_lt.mp hav
          | succ j =>
              have hj : j < rest.length := by
                simpa using h
              simp only [List.get_cons_succ]
              exact le_trans (not_lt.mp hav)
                (ha _ (List.get_mem rest j hj))

lemma searchsorted_right_spec (v : ℚ) :
    ∀ (l : List ℚ), l.Sorted (· ≤ ·) →
      searchsorted_right l v ≤ l.length ∧
      ∀ (i : ℕ) (h : i < l.length),
        (v < l.get ⟨i, h⟩ ↔ searchsorted_right l v ≤ i)
  | [], _ => by
      refine ⟨by simp [searchsorted_right], ?_⟩
      intro i h
      simp at h
  | a :: rest, hs => by
      have ha : ∀ b ∈ rest, a ≤ b := (List.sorted_cons.mp hs).1
      have hrest : rest.Sorted (· ≤ ·) := (List.sorted_cons.mp hs).2
      have IH := searchsorted_right_spec v rest hrest
      by_cases hav : a ≤ v
      · have hssr : searchsorted_right (a :: rest) v
            = searchsorted_right rest v + 1 := by
          simp [searchsorted_right, List.takeWhile_cons, hav]
        refine ⟨by simp only [hssr, List.length_cons]; omega, ?_⟩
        intro i h
        cases i with
        | zero =>
            simp only [List.get_cons_zero, hssr]
            constructor
            · intro hv
              exact absurd hav (not_le.mpr hv)
            · intro h0
              omega
        | succ j =>
            have hj : j < rest.length := by
              simpa using h
            have := (IH.2 j hj)
            simp only [List.get_cons_succ, hssr]
            rw [show rest.get ⟨j, by simpa using h⟩
                = rest.get ⟨j, hj⟩ from rfl]
            rw [this]
            omega
      · have hssr : searchsorted_right (a :: rest) v = 0 := by
          simp [searchsorted_right, List.takeWhile_cons, hav]
        refine ⟨by simp [hssr], ?_⟩
        intro i h
        simp only [hssr]
        constructor
        · intro _
          omega
        · intro _
          cases i with
          | zero =>
              simpa using not_le.mp hav
          | succ j =>
              have hj : j < rest.length := by
                simpa using h
              simp only [List.get_cons_succ]
              exact lt_of_lt_of_le (not_le.mp hav)
                (ha _ (List.get_mem rest j hj))

/-- C2: in fixed-window mode, for every time-ascending snapshot array
and window `[t_min, t_min + w]`, the visible sub-range is bounded by
left = first index with `time ≥ t_min` and right = first index with
`time > t_min + w`; in the concrete scenario with samples `t = 0..99`
and `w = 10`, `t_min = max(0, 99 - 10) = 89` and the selected index
range is `[89, 100)`, i.e. exactly the samples with `t ∈ [89, 99]`. -/
theorem C2_window_bounds_first_indices
    (t : List ℚ) (hs : t.Sorted (· ≤ ·)) (tmin w : ℚ) :
    ((visible_bounds t tmin (tmin + w)).1 ≤ t.length ∧
     (visible_bounds t tmin (tmin + w)).2 ≤ t.length ∧
     (∀ (i : ℕ) (h : i < t.length),
       (tmin ≤ t.get ⟨i, h⟩ ↔ (visible_bounds t tmin (tmin + w)).1 ≤ i)) ∧
     (∀ (i : ℕ) (h : i < t.length),
       (tmin + w < t.get ⟨i, h⟩ ↔
         (visible_bounds t tmin (tmin + w)).2 ≤ i))) ∧
    t_min_of 99 10 = 89 ∧
    visible_bounds ((List.range 100).map (fun n : ℕ => (n : ℚ)))
      (t_min_of 99 10) (t_min_of 99 10 + 10) = (89, 100) := by
  have h89 : t_min_of 99 10 = 89 := by
    norm_num [t_min_of]
  have h99 : t_min_of 99 10 + 10 = 99 := by
    rw [h89]
    norm_num
  have hL := searchsorted_left_spec tmin t hs
  have hR := searchsorted_right_spec (tmin + w) t hs
  refine ⟨⟨hL.1, hR.1, hL.2, hR.2⟩, h89, ?_⟩
  rw [h99, h89]
  decide

/-- C2 witness: at the concrete 100-sample ascending array, index 89 is
the left bound of the visible range for `t_min = 89`, `w = 10`. -/
theorem C2_window_bounds_first_indices_witness :
    (89 : ℚ) ≤ ((List.range 100).map (fun n : ℕ => (n : ℚ))).get
        ⟨89, by decide⟩ ↔
      (visible_bounds ((List.range 100).map (fun n : ℕ => (n : ℚ)))
          89 (89 + 10)).1 ≤ 89 :=
  (C2_window_bounds_first_indices
      ((List.range 100).map (fun n : ℕ => (n : ℚ)))
      (by decide) 89 10).1.2.2.1 89 (by decide)

/-- C3: on a freshly constructed or cleared store the first `append`
sets `t0` to that call's absolute timestamp, so the first stored sample
has relative time 0; every subsequent append in the same session leaves
`t0` unchanged and stores relative time `timestamp - t0`. -/
theorem C3_first_append_fixes_t0 :
    (∀ cap : ℕ, (LiveDataStore.mkStore cap).t0 = none) ∧
    (∀ s : LiveDataStore, s.clear.t0 = none) ∧
    (∀ (s : LiveDataStore) (n : String) (ts v : ℚ), s.t0 = none →
      (s.appendT n ts v).2 = 0 ∧ (s.appendT n ts v).1.t0 = some ts) ∧
    (∀ (s : LiveDataStore) (a : ℚ) (n : String) (ts v : ℚ),
      s.t0 = some a →
      (s.appendT n ts v).2 = ts - a ∧ (s.appendT n ts v).1.t0 = some a) := by
  refine ⟨fun _ => rfl, fun _ => rfl, ?_, ?_⟩
  · intro s n ts v h
    simp [LiveDataStore.appendT, h]
  · intro s a n ts v h
    simp [LiveDataStore.appendT, h]

/-- C3 witness: a concrete first and second append. -/
theorem C3_first_append_fixes_t0_witness :
    (((LiveDataStore.mkStore 3).appendT "a" 5 1).2 = 0 ∧
      ((LiveDataStore.mkStore 3).appendT "a" 5 1).1.t0 = some 5) ∧
    ((((LiveDataStore.mkStore 3).appendT "a" 5 1).1.appendT "b" 7 2).2
        = 7 - 5 ∧
      (((LiveDataStore.mkStore 3).appendT "a" 5 1).1.appendT
          "b" 7 2).1.t0 = some 5) :=
  ⟨C3_first_append_fixes_t0.2.2.1 (LiveDataStore.mkStore 3) "a" 5 1 rfl,
   C3_first_append_fixes_t0.2.2.2
     ((LiveDataStore.mkStore 3).appendT "a" 5 1).1 5 "b" 7 2
     (C3_first_append_fixes_t0.2.2.1 (LiveDataStore.mkStore 3)
       "a" 5 1 rfl).2⟩

lemma appendT_latest (s : LiveDataStore) (n : String) (ts v : ℚ) :
    (s.appendT n ts v).1.latest_t
      = runMax s.latest_t [(s.appendT n ts v).2] := by
  cases h : s.latest_t with
  | none => simp [LiveDataStore.appendT, runMax, h]
  | some a => simp [LiveDataStore.appendT, runMax, h]

lemma runMax_append (o : Option ℚ) (rs₁ rs₂ : List ℚ) :
    runMax o (rs₁ ++ rs₂) = runMax (runMax o rs₁) rs₂ := by
  unfold runMax
  rw [List.foldl_append]

lemma appendAllT_latest :
    ∀ (l : List (String × ℚ × ℚ)) (s : LiveDataStore),
      (s.appendAllT l).1.latest_t
        = runMax s.latest_t (s.appendAllT l).2
  | [], s => rfl
  | (n, tv) :: rest, s => by
    have IH := appendAllT_latest rest (s.appendT n tv.1 tv.2).1
    simp only [LiveDataStore.appendAllT]
    rw [IH, appendT_latest]
    rw [show ((s.appendT n tv.1 tv.2).2 :: ((s.appendT n tv.1 tv.2).1.appendAllT rest).2)
        = [(s.appendT n tv.1 tv.2).2] ++ ((s.appendT n tv.1 tv.2).1.appendAllT rest).2
      from rfl]
    rw [runMax_append]

lemma runMax_some_spec :
    ∀ (rs : List ℚ) (a : ℚ), ∃ m, runMax (some a) rs = some m ∧
      (m = a ∨ m ∈ rs) ∧ a ≤ m ∧ ∀ x ∈ rs, x ≤ m
  | [], a => ⟨a, rfl, Or.inl rfl, le_refl a, by simp⟩
  | r :: rs, a => by
    by_cases har : a < r
    · obtain ⟨m, hm, hmem, hle, hbound⟩ := runMax_some_spec rs r
      refine ⟨m, ?_, ?_, ?_, ?_⟩
      · simpa [runMax, har] using hm
      · rcases hmem with h | h
        · exact Or.inr (by simp [h])
        · exact Or.inr (by simp [h])
      · exact le_trans har.le hle
      · intro x hx
        rcases List.mem_cons.mp hx with h | h
        · subst h
          exact hle
        · exact hbound x h
    · obtain ⟨m, hm, hmem, hle, hbound⟩ := runMax_some_spec rs a
      refine ⟨m, ?_, ?_, hle, ?_⟩
      · simpa [runMax, har] using hm
      · rcases hmem with h | h
        · exact Or.inl h
        · exact Or.inr (by simp [h])
      · intro x hx
        rcases List.mem_cons.mp hx with h | h
        · subst h
          exact le_trans (not_lt.mp har) hle
        · exact hbound x h

/-- C4: after any sequence of appends on a fresh store,
`get_latest_timestamp` is `none` exactly when no sample was appended,
and otherwise is the maximum of the relative timestamps of all appended
samples across all channels; each single append can only keep or
increase it. -/
theorem C4_latest_timestamp_is_running_max
    (cap : ℕ) (l : List (String × ℚ × ℚ)) :
    (((LiveDataStore.mkStore cap).appendAllT l).1.get_latest_timestamp
        = none ↔ l = []) ∧
    (∀ m, ((LiveDataStore.mkStore cap).appendAllT l).1.get_latest_timestamp
        = some m →
      m ∈ ((LiveDataStore.mkStore cap).appendAllT l).2 ∧
      ∀ x ∈ ((LiveDataStore.mkStore cap).appendAllT l).2, x ≤ m) ∧
    (∀ (s : LiveDataStore) (n : String) (ts v a : ℚ),
      s.latest_t = some a →
      ∃ b, (s.appendT n ts v).1.latest_t = some b ∧ a ≤ b) := by
  refine ⟨?_, ?_, ?_⟩
  · cases l with
    | nil => simp [LiveDataStore.appendAllT, LiveDataStore.get_latest_timestamp, LiveDataStore.mkStore]
    | cons p rest =>
      simp only [LiveDataStore.get_latest_timestamp]
      rw [appendAllT_latest]
      obtain ⟨n, tv⟩ := p
      simp only [LiveDataStore.appendAllT]
      rw [show ((((LiveDataStore.mkStore cap).appendT n tv.1 tv.2).2 ::
            ((((LiveDataStore.mkStore cap).appendT n tv.1 tv.2).1).appendAllT rest).2))
          = [(((LiveDataStore.mkStore cap).appendT n tv.1 tv.2).2)] ++
            ((((LiveDataStore.mkStore cap).appendT n tv.1 tv.2).1).appendAllT rest).2
        from rfl]
      rw [runMax_append]
      obtain ⟨m, hm, _, _, _⟩ := runMax_some_spec
        ((((LiveDataStore.mkStore cap).appendT n tv.1 tv.2).1).appendAllT rest).2
        (((LiveDataStore.mkStore cap).appendT n tv.1 tv.2).2)
      have h0 : runMax ((LiveDataStore.mkStore cap).latest_t)
            [((LiveDataStore.mkStore cap).appendT n tv.1 tv.2).2]
          = some (((LiveDataStore.mkStore cap).appendT n tv.1 tv.2).2) := rfl
      rw [h0, hm]
      simp
  · intro m hm
    simp only [LiveDataStore.get_latest_timestamp] at hm
    rw [appendAllT_latest] at hm
    cases hl : ((LiveDataStore.mkStore cap).appendAllT l).2 with
    | nil =>
      rw [hl] at hm
      simp [LiveDataStore.mkStore, runMax] at hm
    | cons r rs =>
      rw [hl] at hm
      have hstep : runMax (none : Option ℚ) (r :: rs) = runMax (some r) rs := rfl
      rw [show ((LiveDataStore.mkStore cap).latest_t) = none from rfl, hstep] at hm
      obtain ⟨m', hm', hmem, hle, hbound⟩ := runMax_some_spec rs r
      rw [hm'] at hm
      injection hm with hm
      subst hm
      constructor
      · rcases hmem with h | h
        · subst h
          simp
        · simp [h]
      · intro x hx
        rcases List.mem_cons.mp hx with h | h
        · subst h
          exact hle
        · exact hbound x h
  · intro s n ts v a h
    rw [appendT_latest, h]
    by_cases hlt : a < (s.appendT n ts v).2
    · exact ⟨(s.appendT n ts v).2, by simp [runMax, hlt], hlt.le⟩
    · exact ⟨a, by simp [runMax, hlt], le_refl a⟩

/-- C4 witness: a concrete two-append session whose maximum relative
timestamp is 0 (the second sample arrives earlier than the first). -/
theorem C4_latest_timestamp_is_running_max_witness :
    (0 : ℚ) ∈ ((LiveDataStore.mkStore 3).appendAllT
        [("a", 5, 1), ("b", 2, 4)]).2 :=
  ((C4_latest_timestamp_is_running_max 3 [("a", 5, 1), ("b", 2, 4)]).2.1
    0 (by norm_num [LiveDataStore.mkStore, LiveDataStore.appendAllT,
      LiveDataStore.appendT, LiveDataStore.get_latest_timestamp])).1

lemma processSignals_known_mono (ts : ℚ) :
    ∀ (sigs : List (String × Except PyErr ℚ)) (store : LiveDataStore)
      (known newly : List String) (x : String), x ∈ known →
      x ∈ psKnown (processSignals ts store known newly sigs)
  | [], store, known, newly, x, hx => by
      simpa [processSignals, psKnown] using hx
  | (name, v) :: rest, store, known, newly, x, hx => by
      cases v with
      | error e =>
          simpa [processSignals, psKnown] using hx
      | ok xv =>
          by_cases hmem : name ∈ known
          · simpa [processSignals, hmem] using
              processSignals_known_mono ts rest
                (store.append name ts xv) known newly x hx
          · simpa [processSignals, hmem] using
              processSignals_known_mono ts rest
                (store.append name ts xv) (name :: known)
                (newly ++ [name]) x (List.mem_cons_of_mem _ hx)

lemma processSignals_newly_fresh (ts : ℚ) :
    ∀ (sigs : List (String × Except PyErr ℚ)) (store : LiveDataStore)
      (known newly : List String) (st2 : LiveDataStore)
      (kn2 nw2 : List String),
      processSignals ts store known newly sigs = .ok (st2, kn2, nw2) →
      ∀ x ∈ nw2, x ∈ newly ∨ x ∉ known
  | [], store, known, newly, st2, kn2, nw2 => by
      intro h x hx
      simp [processSignals] at h
      obtain ⟨_, _, h3⟩ := h
      subst h3
      exact Or.inl hx
  | (name, v) :: rest, store, known, newly, st2, kn2, nw2 => by
      intro h x hx
      cases v with
      | error e =>
          simp [processSignals] at h
      | ok xv =>
          by_cases hmem : name ∈ known
          · rw [show processSignals ts store known newly
                  ((name, Except.ok xv) :: rest)
                = processSignals ts (store.append name ts xv) known newly
                  rest by simp [processSignals, hmem]] at h
            exact processSignals_newly_fresh ts rest _ _ _ _ _ _ h x hx
          · rw [show processSignals ts store known newly
                  ((name, Except.ok xv) :: rest)
                = processSignals ts (store.append name ts xv)
                  (name :: known) (newly ++ [name]) rest
                by simp [processSignals, hmem]] at h
            rcases processSignals_newly_fresh ts rest _ _ _ _ _ _ h x hx
              with hin | hout
            · rcases List.mem_append.mp hin with h1 | h1
              · exact Or.inl h1
              · simp at h1
                subst h1
                exact Or.inr hmem
            · exact Or.inr fun hk => hout (List.mem_cons_of_mem _ hk)

lemma processSignals_ok_spec (ts : ℚ) :
    ∀ (sigs : List (String × Except PyErr ℚ)) (store : LiveDataStore)
      (known newly : List String),
      (∀ p ∈ sigs, ∃ xv, p.2 = Except.ok xv) →
      ∃ st2 kn2, processSignals ts store known newly sigs
        = .ok (st2, kn2, newly ++ newFirstSeen known (sigs.map Prod.fst))
  | [], store, known, newly, _ => by
      exact ⟨store, known, by simp [processSignals, newFirstSeen]⟩
  | (name, v) :: rest, store, known, newly, hall => by
      obtain ⟨xv, hxv⟩ := hall (name, v) (List.mem_cons_self _ _)
      simp only at hxv
      subst hxv
      have hrest : ∀ p ∈ rest, ∃ xv, p.2 = Except.ok xv :=
        fun p hp => hall p (List.mem_cons_of_mem _ hp)
      by_cases hmem : name ∈ known
      · obtain ⟨st2, kn2, hps⟩ := processSignals_ok_spec ts rest
          (store.append name ts xv) known newly hrest
        refine ⟨st2, kn2, ?_⟩
        rw [show processSignals ts store known newly
              ((name, Except.ok xv) :: rest)
            = processSignals ts (store.append name ts xv) known newly rest
          by simp [processSignals, hmem]]
        rw [hps]
        simp [newFirstSeen, hmem]
      · obtain ⟨st2, kn2, hps⟩ := processSignals_ok_spec ts rest
          (store.append name ts xv) (name :: known) (newly ++ [name]) hrest
        refine ⟨st2, kn2, ?_⟩
        rw [show processSignals ts store known newly
              ((name, Except.ok xv) :: rest)
            = processSignals ts (store.append name ts xv) (name :: known)
              (newly ++ [name]) rest
          by simp [processSignals, hmem]]
        rw [hps]
        simp [newFirstSeen, hmem]

lemma processSignals_error_spec (ts : ℚ) :
    ∀ (pre : List (String × ℚ)) (store : LiveDataStore)
      (known newly : List String) (bad : String) (e : PyErr)
      (rest : List (String × Except PyErr ℚ)),
      ∃ kn2,
        processSignals ts store known newly
            (pre.map (fun p => (p.1, Except.ok p.2)) ++
              (bad, Except.error e) :: rest)
          = .error (e, appendSignals ts store pre, kn2) ∧
        (∀ p ∈ pre, p.1 ∈ kn2) ∧ ∀ x ∈ known, x ∈ kn2
  | [], store, known, newly, bad, e, rest => by
      refine ⟨known, ?_, by simp, fun x hx => hx⟩
      simp [processSignals, appendSignals]
  | (name, xv) :: pre, store, known, newly, bad, e, rest => by
      by_cases hmem : name ∈ known
      · obtain ⟨kn2, hps, hpre, hknown⟩ := processSignals_error_spec ts pre
          (store.append name ts xv) known newly bad e rest
        refine ⟨kn2, ?_, ?_, hknown⟩
        · rw [show ((name, xv) :: pre).map
                (fun p => (p.1, (Except.ok p.2 : Except PyErr ℚ)))
              = (name, Except.ok xv) ::
                pre.map (fun p => (p.1, Except.ok p.2)) by simp]
          rw [List.cons_append]
          rw [show processSignals ts store known newly
                ((name, Except.ok xv) ::
                  (pre.map (fun p => (p.1, Except.ok p.2)) ++
                    (bad, Except.error e) :: rest))
              = processSignals ts (store.append name ts xv) known newly
                (pre.map (fun p => (p.1, Except.ok p.2)) ++
                  (bad, Except.error e) :: rest)
            by simp [processSignals, hmem]]
          rw [hps]
          rfl
        · intro p hp
          rcases List.mem_cons.mp hp with h1 | h1
          · subst h1
            exact hknown _ hmem
          · exact hpre p h1
      · obtain ⟨kn2, hps, hpre, hknown⟩ := processSignals_error_spec ts pre
          (store.append name ts xv) (name :: known) (newly ++ [name])
          bad e rest
        refine ⟨kn2, ?_, ?_, ?_⟩
        · rw [show ((name, xv) :: pre).map
                (fun p => (p.1, (Except.ok p.2 : Except PyErr ℚ)))
              = (name, Except.ok xv) ::
                pre.map (fun p => (p.1, Except.ok p.2)) by simp]
          rw [List.cons_append]
          rw [show processSignals ts store known newly
                ((name, Except.ok xv) ::
                  (pre.map (fun p => (p.1, Except.ok p.2)) ++
                    (bad, Except.error e) :: rest))
              = processSignals ts (store.append name ts xv) (name :: known)
                (newly ++ [name])
                (pre.map (fun p => (p.1, Except.ok p.2)) ++
                  (bad, Except.error e) :: rest)
            by simp [processSignals, hmem]]
          rw [hps]
          rfl
        · intro p hp
          rcases List.mem_cons.mp hp with h1 | h1
          · subst h1
            exact hknown _ (List.mem_cons_self _ _)
          · exact hpre p h1
        · exact fun x hx => hknown x (List.mem_cons_of_mem _ hx)

lemma omr_drop (db : Schema) (d : DecoderListener) (m : Msg)
    (h : m.arbitration_id ∈ d.no_decode) :
    d.on_message_received db m = (d, []) := by
  simp [DecoderListener.on_message_received, h]

lemma omr_resolve_fail (db : Schema) (d : DecoderListener) (m : Msg)
    (hid : m.arbitration_id ∉ d.no_decode)
    (hdb : db m.arbitration_id = none) :
    d.on_message_received db m
      = ({ d with no_decode := m.arbitration_id :: d.no_decode },
         [.logCannotDecode m.arbitration_id]) := by
  simp [DecoderListener.on_message_received, hid, hdb]

lemma omr_decode_keyError (db : Schema) (d : DecoderListener) (m : Msg)
    (dec : List ℕ → Except PyErr (List (String × Except PyErr ℚ)))
    (hid : m.arbitration_id ∉ d.no_decode)
    (hdb : db m.arbitration_id = some dec)
    (hdec : dec m.data = .error .keyError) :
    d.on_message_received db m
      = ({ d with no_decode := m.arbitration_id :: d.no_decode },
         [.logCannotDecode m.arbitration_id]) := by
  simp [DecoderListener.on_message_received, hid, hdb, hdec]

lemma omr_decode_other (db : Schema) (d : DecoderListener) (m : Msg)
    (dec : List ℕ → Except PyErr (List (String × Except PyErr ℚ)))
    (hid : m.arbitration_id ∉ d.no_decode)
    (hdb : db m.arbitration_id = some dec)
    (hdec : dec m.data = .error .other) :
    d.on_message_received db m
      = (d, [.logDecodeError m.arbitration_id]) := by
  simp [DecoderListener.on_message_received, hid, hdb, hdec]

lemma omr_ok_ok (db : Schema) (d : DecoderListener) (m : Msg)
    (dec : List ℕ → Except PyErr (List (String × Except PyErr ℚ)))
    (sigs : List (String × Except PyErr ℚ)) (st2 : LiveDataStore)
    (kn2 nw : List String)
    (hid : m.arbitration_id ∉ d.no_decode)
    (hdb : db m.arbitration_id = some dec)
    (hdec : dec m.data = .ok sigs)
    (hps : processSignals m.timestamp d.data_store d.known_signals [] sigs
      = .ok (st2, kn2, nw)) :
    d.on_message_received db m
      = ({ d with data_store := st2, known_signals := kn2 },
         if nw ≠ [] ∧ d.has_new_signals_callback = true then
           [.newSignals nw]
         else []) := by
  simp [DecoderListener.on_message_received, hid, hdb, hdec, hps]

lemma omr_ok_err_keyError (db : Schema) (d : DecoderListener) (m : Msg)
    (dec : List ℕ → Except PyErr (List (String × Except PyErr ℚ)))
    (sigs : List (String × Except PyErr ℚ)) (st2 : LiveDataStore)
    (kn2 : List String)
    (hid : m.arbitration_id ∉ d.no_decode)
    (hdb : db m.arbitration_id = some dec)
    (hdec : dec m.data = .ok sigs)
    (hps : processSignals m.timestamp d.data_store d.known_signals [] sigs
      = .error (.keyError, st2, kn2)) :
    d.on_message_received db m
      = ({ d with
            data_store := st2
            known_signals := kn2
            no_decode := m.arbitration_id :: d.no_decode },
         [.logCannotDecode m.arbitration_id]) := by
  simp [DecoderListener.on_message_received, hid, hdb, hdec, hps]

lemma omr_ok_err_other (db : Schema) (d : DecoderListener) (m : Msg)
    (dec : List ℕ → Except PyErr (List (String × Except PyErr ℚ)))
    (sigs : List (String × Except PyErr ℚ)) (st2 : LiveDataStore)
    (kn2 : List String)
    (hid : m.arbitration_id ∉ d.no_decode)
    (hdb : db m.arbitration_id = some dec)
    (hdec : dec m.data = .ok sigs)
    (hps : processSignals m.timestamp d.data_store d.known_signals [] sigs
      = .error (.other, st2, kn2)) :
    d.on_message_received db m
      = ({ d with data_store := st2, known_signals := kn2 },
         [.logDecodeError m.arbitration_id]) := by
  simp [DecoderListener.on_message_received, hid, hdb, hdec, hps]

lemma omr_known_mono (db : Schema) (d : DecoderListener) (m : Msg)
    (x : String) (hx : x ∈ d.known_signals) :
    x ∈ (d.on_message_received db m).1.known_signals := by
  by_cases hid : m.arbitration_id ∈ d.no_decode
  · rw [omr_drop db d m hid]
    exact hx
  · cases hdb : db m.arbitration_id with
    | none =>
      rw [omr_resolve_fail db d m hid hdb]
      exact hx
    | some dec =>
      cases hdec : dec m.data with
      | error e =>
        cases e
        · rw [omr_decode_keyError db d m dec hid hdb hdec]
          exact hx
        · rw [omr_decode_other db d m dec hid hdb hdec]
          exact hx
      | ok sigs =>
        have hmono := processSignals_known_mono m.timestamp sigs
          d.data_store d.known_signals [] x hx
        cases hps : processSignals m.timestamp d.data_store
            d.known_signals [] sigs with
        | ok r =>
          obtain ⟨st2, kn2, nw⟩ := r
          rw [hps] at hmono
          simp only [psKnown] at hmono
          rw [omr_ok_ok db d m dec sigs st2 kn2 nw hid hdb hdec hps]
          exact hmono
        | error r =>
          obtain ⟨e, st2, kn2⟩ := r
          rw [hps] at hmono
          simp only [psKnown] at hmono
          cases e
          · rw [omr_ok_err_keyError db d m dec sigs st2 kn2 hid hdb hdec hps]
            exact hmono
          · rw [omr_ok_err_other db d m dec sigs st2 kn2 hid hdb hdec hps]
            exact hmono

lemma omr_no_decode_mono (db : Schema) (d : DecoderListener) (m : Msg)
    (i : ℕ) (hi : i ∈ d.no_decode) :
    i ∈ (d.on_message_received db m).1.no_decode := by
  by_cases hid : m.arbitration_id ∈ d.no_decode
  · rw [omr_drop db d m hid]
    exact hi
  · cases hdb : db m.arbitration_id with
    | none =>
      rw [omr_resolve_fail db d m hid hdb]
      exact List.mem_cons_of_mem _ hi
    | some dec =>
      cases hdec : dec m.data with
      | error e =>
        cases e
        · rw [omr_decode_keyError db d m dec hid hdb hdec]
          exact List.mem_cons_of_mem _ hi
        · rw [omr_decode_other db d m dec hid hdb hdec]
          exact hi
      | ok sigs =>
        cases hps : processSignals m.timestamp d.data_store
            d.known_signals [] sigs with
        | ok r =>
          obtain ⟨st2, kn2, nw⟩ := r
          rw [omr_ok_ok db d m dec sigs st2 kn2 nw hid hdb hdec hps]
          exact hi
        | error r =>
          obtain ⟨e, st2, kn2⟩ := r
          cases e
          · rw [omr_ok_err_keyError db d m dec sigs st2 kn2 hid hdb hdec hps]
            exact List.mem_cons_of_mem _ hi
          · rw [omr_ok_err_other db d m dec sigs st2 kn2 hid hdb hdec hps]
            exact hi

lemma omr_notify_fresh (db : Schema) (d : DecoderListener) (m : Msg)
    (ns : List String)
    (hev : DecoderEvent.newSignals ns ∈ (d.on_message_received db m).2) :
    ∀ x ∈ ns, x ∉ d.known_signals := by
  intro x hx
  by_cases hid : m.arbitration_id ∈ d.no_decode
  · rw [omr_drop db d m hid] at hev
    simp at hev
  · cases hdb : db m.arbitration_id with
    | none =>
      rw [omr_resolve_fail db d m hid hdb] at hev
      simp at hev
    | some dec =>
      cases hdec : dec m.data with
      | error e =>
        cases e
        · rw [omr_decode_keyError db d m dec hid hdb hdec] at hev
          simp at hev
        · rw [omr_decode_other db d m dec hid hdb hdec] at hev
          simp at hev
      | ok sigs =>
        cases hps : processSignals m.timestamp d.data_store
            d.known_signals [] sigs with
        | ok r =>
          obtain ⟨st2, kn2, nw⟩ := r
          rw [omr_ok_ok db d m dec sigs st2 kn2 nw hid hdb hdec hps] at hev
          by_cases hcond : nw ≠ [] ∧ d.has_new_signals_callback = true
          · rw [if_pos hcond] at hev
            have hns : ns = nw := by simpa using hev
            rcases processSignals_newly_fresh m.timestamp sigs
              d.data_store d.known_signals [] st2 kn2 nw hps x (hns ▸ hx)
              with h1 | h1
            · simp at h1
            · exact h1
          · rw [if_neg hcond] at hev
            simp at hev
        | error r =>
          obtain ⟨e, st2, kn2⟩ := r
          cases e
          · rw [omr_ok_err_keyError db d m dec sigs st2 kn2
              hid hdb hdec hps] at hev
            simp at hev
          · rw [omr_ok_err_other db d m dec sigs st2 kn2
              hid hdb hdec hps] at hev
            simp at hev

lemma run_messages_known_mono (db : Schema) :
    ∀ (msgs : List Msg) (d : DecoderListener) (x : String),
      x ∈ d.known_signals →
      x ∈ (run_messages db d msgs).1.known_signals
  | [], _, _, hx => hx
  | m :: ms, d, x, hx => by
    simp only [run_messages]
    exact run_messages_known_mono db ms (d.on_message_received db m).1 x
      (omr_known_mono db d m x hx)

lemma run_messages_no_decode_mono (db : Schema) :
    ∀ (msgs : List Msg) (d : DecoderListener) (i : ℕ),
      i ∈ d.no_decode →
      i ∈ (run_messages db d msgs).1.no_decode
  | [], _, _, hi => hi
  | m :: ms, d, i, hi => by
    simp only [run_messages]
    exact run_messages_no_decode_mono db ms (d.on_message_received db m).1 i
      (omr_no_decode_mono db d m i hi)

lemma run_messages_notify_fresh (db : Schema) :
    ∀ (msgs : List Msg) (d : DecoderListener) (ns : List String)
      (x : String), x ∈ d.known_signals →
      DecoderEvent.newSignals ns ∈ (run_messages db d msgs).2 → x ∉ ns
  | [], d, ns, x, hx, hev => by
    simp [run_messages] at hev
  | m :: ms, d, ns, x, hx, hev => by
    simp only [run_messages] at hev
    rcases List.mem_append.mp hev with h1 | h1
    · intro hns
      exact omr_notify_fresh db d m ns h1 x hns hx
    · exact run_messages_notify_fresh db ms (d.on_message_received db m).1
        ns x (omr_known_mono db d m x hx) h1

/-- C5: for every frame whose id resolves in the schema but whose
payload decoding fails, the error is caught and produces exactly one log
event, the frame is dropped (no discovery notification), and neither the
channel store nor the first-seen set is mutated; the handler returns
normally instead of propagating. -/
theorem C5_decode_failure_isolated (db : Schema) (d : DecoderListener)
    (m : Msg) (dec : List ℕ → Except PyErr (List (String × Except PyErr ℚ)))
    (e : PyErr)
    (hid : m.arbitration_id ∉ d.no_decode)
    (hdb : db m.arbitration_id = some dec)
    (hdec : dec m.data = .error e) :
    (d.on_message_received db m).1.data_store = d.data_store ∧
    (d.on_message_received db m).1.known_signals = d.known_signals ∧
    (d.on_message_received db m).2
      = [match e with
         | .keyError => DecoderEvent.logCannotDecode m.arbitration_id
         | .other => DecoderEvent.logDecodeError m.arbitration_id] := by
  cases e
  · rw [omr_decode_keyError db d m dec hid hdb hdec]
    exact ⟨rfl, rfl, rfl⟩
  · rw [omr_decode_other db d m dec hid hdb hdec]
    exact ⟨rfl, rfl, rfl⟩

/-- C5 witness: a concrete malformed-payload frame. -/
theorem C5_decode_failure_isolated_witness :
    ((exampleListener.on_message_received
        (fun i => if i = 7 then
          some (fun _ => Except.error PyErr.other) else none)
        ⟨7, [1], 0⟩).1.data_store = exampleListener.data_store) ∧
    ((exampleListener.on_message_received
        (fun i => if i = 7 then
          some (fun _ => Except.error PyErr.other) else none)
        ⟨7, [1], 0⟩).1.known_signals = exampleListener.known_signals) ∧
    ((exampleListener.on_message_received
        (fun i => if i = 7 then
          some (fun _ => Except.error PyErr.other) else none)
        ⟨7, [1], 0⟩).2 = [DecoderEvent.logDecodeError 7]) :=
  C5_decode_failure_isolated
    (fun i => if i = 7 then some (fun _ => Except.error PyErr.other)
      else none)
    exampleListener ⟨7, [1], 0⟩ (fun _ => Except.error PyErr.other)
    PyErr.other
    (by simp [exampleListener, DecoderListener.mkListener])
    (by simp) rfl

/-- C6: per successfully decoded frame at most one discovery
notification is emitted; when every value converts, the notification is
emitted exactly when the batch of not-previously-seen names is non-empty
and a callback is installed, and it carries exactly that batch; in the
concrete scenario, frames `{A, B}` then `{B, C}` yield exactly one
notification `["A", "B"]` then exactly one notification `["C"]`. -/
theorem C6_one_discovery_notification_per_frame :
    (∀ (db : Schema) (d : DecoderListener) (m : Msg),
      ((d.on_message_received db m).2.countP
        (fun ev => match ev with
          | DecoderEvent.newSignals _ => true
          | _ => false)) ≤ 1) ∧
    (∀ (db : Schema) (d : DecoderListener) (m : Msg)
      (dec : List ℕ → Except PyErr (List (String × Except PyErr ℚ)))
      (sigs : List (String × Except PyErr ℚ)),
      m.arbitration_id ∉ d.no_decode →
      db m.arbitration_id = some dec →
      dec m.data = .ok sigs →
      (∀ p ∈ sigs, ∃ xv, p.2 = Except.ok xv) →
      (d.on_message_received db m).2
        = if newFirstSeen d.known_signals (sigs.map Prod.fst) ≠ [] ∧
            d.has_new_signals_callback = true then
            [DecoderEvent.newSignals
              (newFirstSeen d.known_signals (sigs.map Prod.fst))]
          else []) ∧
    ((exampleListener.on_message_received exampleSchema ⟨1, [], 0⟩).2
        = [DecoderEvent.newSignals ["A", "B"]] ∧
      ((exampleListener.on_message_received exampleSchema
          ⟨1, [], 0⟩).1.on_message_received exampleSchema ⟨2, [], 1⟩).2
        = [DecoderEvent.newSignals ["C"]]) := by
  refine ⟨?_, ?_, ?_, ?_⟩
  · intro db d m
    by_cases hid : m.arbitration_id ∈ d.no_decode
    · rw [omr_drop db d m hid]
      simp
    · cases hdb : db m.arbitration_id with
      | none =>
        rw [omr_resolve_fail db d m hid hdb]
        simp
      | some dec =>
        cases hdec : dec m.data with
        | error e =>
          cases e
          · rw [omr_decode_keyError db d m dec hid hdb hdec]
            simp
          · rw [omr_decode_other db d m dec hid hdb hdec]
            simp
        | ok sigs =>
          cases hps : processSignals m.timestamp d.data_store
              d.known_signals [] sigs with
          | ok r =>
            obtain ⟨st2, kn2, nw⟩ := r
            rw [omr_ok_ok db d m dec sigs st2 kn2 nw hid hdb hdec hps]
            by_cases hcond : nw ≠ [] ∧ d.has_new_signals_callback = true
            · rw [if_pos hcond]
              simp
            · rw [if_neg hcond]
              simp
          | error r =>
            obtain ⟨e, st2, kn2⟩ := r
            cases e
            · rw [omr_ok_err_keyError db d m dec sigs st2 kn2
                hid hdb hdec hps]
              simp
            · rw [omr_ok_err_other db d m dec sigs st2 kn2
                hid hdb hdec hps]
              simp
  · intro db d m dec sigs hid hdb hdec hall
    obtain ⟨st2, kn2, hps⟩ := processSignals_ok_spec m.timestamp sigs
      d.data_store d.known_signals [] hall
    rw [List.nil_append] at hps
    rw [omr_ok_ok db d m dec sigs st2 kn2
      (newFirstSeen d.known_signals (sigs.map Prod.fst)) hid hdb hdec hps]
  · simp [DecoderListener.on_message_received, processSignals,
      exampleSchema, exampleListener, DecoderListener.mkListener,
      newFirstSeen]
  · simp [DecoderListener.on_message_received, processSignals,
      exampleSchema, exampleListener, DecoderListener.mkListener,
      newFirstSeen]

/-- C6 witness: the general notification formula applied to the first
concrete frame. -/
theorem C6_one_discovery_notification_per_frame_witness :
    (exampleListener.on_message_received exampleSchema ⟨1, [], 0⟩).2
      = if newFirstSeen exampleListener.known_signals
            ([("A", (Except.ok 1 : Except PyErr ℚ)),
              ("B", Except.ok 2)].map Prod.fst) ≠ [] ∧
          exampleListener.has_new_signals_callback = true then
          [DecoderEvent.newSignals
            (newFirstSeen exampleListener.known_signals
              ([("A", (Except.ok 1 : Except PyErr ℚ)),
                ("B", Except.ok 2)].map Prod.fst))]
        else [] :=
  C6_one_discovery_notification_per_frame.2.1 exampleSchema
    exampleListener ⟨1, [], 0⟩
    (fun _ => Except.ok [("A", Except.ok 1), ("B", Except.ok 2)])
    [("A", Except.ok 1), ("B", Except.ok 2)]
    (by simp [exampleListener, DecoderListener.mkListener])
    (by simp [exampleSchema]) rfl (by simp)

/-- C7: the first delivery of an unresolvable id adds the id to the
negative-result cache and logs exactly one unresolved-frame event; any
delivery whose id is already cached returns the state unchanged with no
events, and does so without consulting the schema at all. -/
theorem C7_unresolved_id_cached_and_silent (db : Schema)
    (d : DecoderListener) (m : Msg) :
    (m.arbitration_id ∉ d.no_decode → db m.arbitration_id = none →
      d.on_message_received db m
        = ({ d with no_decode := m.arbitration_id :: d.no_decode },
           [DecoderEvent.logCannotDecode m.arbitration_id])) ∧
    (m.arbitration_id ∈ d.no_decode →
      d.on_message_received db m = (d, []) ∧
      ∀ db2 : Schema,
        d.on_message_received db m = d.on_message_received db2 m) :=
  ⟨fun hid hdb => omr_resolve_fail db d m hid hdb,
   fun h => ⟨omr_drop db d m h,
     fun db2 => by rw [omr_drop db d m h, omr_drop db2 d m h]⟩⟩

/-- C7 witness: a concrete unknown id delivered twice. -/
theorem C7_unresolved_id_cached_and_silent_witness :
    (exampleListener.on_message_received (fun _ => none) ⟨9, [], 0⟩
      = ({ exampleListener with
            no_decode := 9 :: exampleListener.no_decode },
         [DecoderEvent.logCannotDecode 9])) ∧
    ({ exampleListener with no_decode := [9] }.on_message_received
        (fun _ => none) ⟨9, [], 0⟩
      = ({ exampleListener with no_decode := [9] }, [])) :=
  ⟨(C7_unresolved_id_cached_and_silent (fun _ => none) exampleListener
      ⟨9, [], 0⟩).1
      (by simp [exampleListener, DecoderListener.mkListener]) rfl,
   ((C7_unresolved_id_cached_and_silent (fun _ => none)
      { exampleListener with no_decode := [9] } ⟨9, [], 0⟩).2
      (by simp)).1⟩

/-- C9: when an exception interrupts the signal loop partway (for
example a value that fails float conversion), the signals processed
before the failure remain appended to the store and recorded in the
first-seen set, yet no discovery notification is emitted for them on
this frame, nor on any later frame in which they recur. -/
theorem C9_partial_mutations_persist_without_notification
    (db : Schema) (d : DecoderListener) (m : Msg)
    (dec : List ℕ → Except PyErr (List (String × Except PyErr ℚ)))
    (preVals : List (String × ℚ)) (bad : String) (e : PyErr)
    (rest : List (String × Except PyErr ℚ))
    (hid : m.arbitration_id ∉ d.no_decode)
    (hdb : db m.arbitration_id = some dec)
    (hdec : dec m.data = .ok
      (preVals.map (fun p => (p.1, Except.ok p.2)) ++
        (bad, Except.error e) :: rest)) :
    (d.on_message_received db m).1.data_store
      = appendSignals m.timestamp d.data_store preVals ∧
    (∀ p ∈ preVals,
      p.1 ∈ (d.on_message_received db m).1.known_signals) ∧
    (∀ ns, DecoderEvent.newSignals ns ∉ (d.on_message_received db m).2) ∧
    (∀ (db2 : Schema) (msgs : List Msg) (ns : List String) (x : String),
      x ∈ (d.on_message_received db m).1.known_signals →
      DecoderEvent.newSignals ns
        ∈ (run_messages db2 (d.on_message_received db m).1 msgs).2 →
      x ∉ ns) := by
  obtain ⟨kn2, hps, hpre, hknown⟩ := processSignals_error_spec m.timestamp
    preVals d.data_store d.known_signals [] bad e rest
  have hlast : ∀ (db2 : Schema) (msgs : List Msg) (ns : List String)
      (x : String),
      x ∈ (d.on_message_received db m).1.known_signals →
      DecoderEvent.newSignals ns
        ∈ (run_messages db2 (d.on_message_received db m).1 msgs).2 →
      x ∉ ns :=
    fun db2 msgs ns x hx hev =>
      run_messages_notify_fresh db2 msgs _ ns x hx hev
  cases e
  · rw [omr_ok_err_keyError db d m dec _ _ kn2 hid hdb hdec hps] at hlast ⊢
    exact ⟨rfl, fun p hp => hpre p hp, fun ns => by simp, hlast⟩
  · rw [omr_ok_err_other db d m dec _ _ kn2 hid hdb hdec hps] at hlast ⊢
    exact ⟨rfl, fun p hp => hpre p hp, fun ns => by simp, hlast⟩

/-- C9 witness: signal `A` is stored and first-seen even though the
next value of the same frame fails conversion. -/
theorem C9_partial_mutations_persist_without_notification_witness :
    ("A", (1 : ℚ)).1 ∈ (exampleListener.on_message_received
        (fun _ => some (fun _ =>
          Except.ok [("A", Except.ok 1), ("Bad", Except.error PyErr.other)]))
        ⟨5, [], 0⟩).1.known_signals :=
  (C9_partial_mutations_persist_without_notification
      (fun _ => some (fun _ =>
        Except.ok [("A", Except.ok 1), ("Bad", Except.error PyErr.other)]))
      exampleListener ⟨5, [], 0⟩
      (fun _ =>
        Except.ok [("A", Except.ok 1), ("Bad", Except.error PyErr.other)])
      [("A", 1)] "Bad" PyErr.other []
      (by simp [exampleListener, DecoderListener.mkListener])
      rfl (by simp)).2.1 ("A", 1) (by simp)

/-- C10: if resolution succeeds but the decode raises `KeyError`, the id
is cached exactly as a resolution failure would be (same cache update,
same single log event), and afterwards every frame carrying that id —
even after arbitrarily many intervening frames — is dropped with no
events and no state change. -/
theorem C10_decode_keyError_poisons_id (db : Schema)
    (d : DecoderListener) (m : Msg)
    (dec : List ℕ → Except PyErr (List (String × Except PyErr ℚ)))
    (hid : m.arbitration_id ∉ d.no_decode)
    (hdb : db m.arbitration_id = some dec)
    (hdec : dec m.data = .error .keyError) :
    (d.on_message_received db m
      = ({ d with no_decode := m.arbitration_id :: d.no_decode },
         [DecoderEvent.logCannotDecode m.arbitration_id])) ∧
    (∀ (db2 db3 : Schema) (msgs : List Msg) (m2 : Msg),
      m2.arbitration_id = m.arbitration_id →
      (run_messages db2 (d.on_message_received db m).1
          msgs).1.on_message_received db3 m2
        = ((run_messages db2 (d.on_message_received db m).1 msgs).1,
           [])) := by
  have heq := omr_decode_keyError db d m dec hid hdb hdec
  refine ⟨heq, ?_⟩
  intro db2 db3 msgs m2 hm2
  have hmem : m.arbitration_id ∈ (d.on_message_received db m).1.no_decode := by
    rw [heq]
    exact List.mem_cons_self _ _
  have hmem2 : m2.arbitration_id
      ∈ (run_messages db2 (d.on_message_received db m).1 msgs).1.no_decode := by
    rw [hm2]
    exact run_messages_no_decode_mono db2 msgs _ _ hmem
  exact omr_drop db3 _ m2 hmem2

/-- C10 witness: a concrete id whose decode raises KeyError, then the
same id delivered again after one intervening frame. -/
theorem C10_decode_keyError_poisons_id_witness :
    (exampleListener.on_message_received
        (fun _ => some (fun _ => Except.error PyErr.keyError)) ⟨3, [], 0⟩
      = ({ exampleListener with
            no_decode := 3 :: exampleListener.no_decode },
         [DecoderEvent.logCannotDecode 3])) ∧
    ((run_messages exampleSchema
        ((exampleListener.on_message_received
          (fun _ => some (fun _ => Except.error PyErr.keyError))
          ⟨3, [], 0⟩)).1 [⟨1, [], 0⟩]).1.on_message_received
        exampleSchema ⟨3, [], 5⟩
      = ((run_messages exampleSchema
          ((exampleListener.on_message_received
            (fun _ => some (fun _ => Except.error PyErr.keyError))
            ⟨3, [], 0⟩)).1 [⟨1, [], 0⟩]).1, [])) :=
  ⟨(C10_decode_keyError_poisons_id
      (fun _ => some (fun _ => Except.error PyErr.keyError))
      exampleListener ⟨3, [], 0⟩
      (fun _ => Except.error PyErr.keyError)
      (by simp [exampleListener, DecoderListener.mkListener])
      rfl rfl).1,
   (C10_decode_keyError_poisons_id
      (fun _ => some (fun _ => Except.error PyErr.keyError))
      exampleListener ⟨3, [], 0⟩
      (fun _ => Except.error PyErr.keyError)
      (by simp [exampleListener, DecoderListener.mkListener])
      rfl rfl).2 exampleSchema exampleSchema [⟨1, [], 0⟩] ⟨3, [], 5⟩ rfl⟩

end PyCan

